import Mathlib

/-!
Verification of the dialogue-orchestration and hybrid-retrieval core of the
avito_agent repository.  Python floats are modelled as rationals, Python dicts
as association lists with unique keys, and falsy checks (`if x:`) as explicit
emptiness or zero tests.  Each definition names the source function it embeds.
-/

set_option autoImplicit false

namespace AvitoAgent

/-! ## Data model: product/models.py -/

/-- Embeds `ProductDimensions` (models.py:6-15). -/
structure ProductDimensions where
  length : ℚ
  width : ℚ
  height : ℚ
deriving DecidableEq

/-- Embeds `Product` (models.py:18-48); `characteristics` is the dict of
characteristic name to value, kept as an association list. -/
structure Product where
  id : String
  title : String
  category : String
  price : ℚ
  min_price : ℚ
  stock : Int
  weight : ℚ
  dimensions : ProductDimensions
  description : String
  characteristics : List (String × String)
  warranty : String
  quality_notes : String
  bargaining_allowed : Bool
  max_discount_percent : ℚ
  meeting_locations : List String
deriving DecidableEq

/-- Embeds `Product.is_available` (models.py:50-52). -/
def Product.is_available (p : Product) : Bool :=
  decide (0 < p.stock)

/-- Embeds `Product.can_bargain` (models.py:54-56). -/
def Product.can_bargain (p : Product) : Bool :=
  p.bargaining_allowed && decide (0 < p.max_discount_percent)

/-- Embeds `Product.calculate_min_acceptable_price` (models.py:58-62). -/
def Product.calculate_min_acceptable_price (p : Product) : ℚ :=
  let discount_amount := p.price * (p.max_discount_percent / 100)
  let calculated_min := p.price - discount_amount
  max calculated_min p.min_price

/-- Embeds `Product.is_price_acceptable` (models.py:64-67). -/
def Product.is_price_acceptable (p : Product) (offered_price : ℚ) : Bool :=
  decide (p.calculate_min_acceptable_price ≤ offered_price)

/-- Embeds `Product.calculate_counter_offer` (models.py:69-83). -/
def Product.calculate_counter_offer (p : Product) (offered_price : ℚ)
    (strategy : String := "meet_halfway") : Option ℚ :=
  if p.is_price_acceptable offered_price then
    none
  else if strategy = "meet_halfway" then
    let min_acceptable := p.calculate_min_acceptable_price
    let counter := (offered_price + p.price) / 2
    some (max counter min_acceptable)
  else
    some p.calculate_min_acceptable_price

/-- Embeds `Product.reserve` (models.py:85-90).  The Python method mutates
`self.stock`; here the updated product is returned alongside the Bool. -/
def Product.reserve (p : Product) (quantity : Int := 1) : Bool × Product :=
  if quantity ≤ p.stock then
    (true, { p with stock := p.stock - quantity })
  else
    (false, p)

/-! ## product/repository.py -/

/-- Embeds the `ProductRepository.products` dict (repository.py:10), an
insertion-ordered map from product id to product. -/
structure ProductRepository where
  products : List (String × Product)
deriving DecidableEq

/-- Recursive lookup of the first binding of a key, the behaviour of a Python
dict access on our unique-key association lists. -/
def dictGet {β : Type} (d : List (String × β)) (k : String) : Option β :=
  match d with
  | [] => none
  | (k2, v) :: rest => if k2 = k then some v else dictGet rest k

/-- Python dict assignment: replace the binding in place when the key exists,
append it otherwise. -/
def dictSet {β : Type} (d : List (String × β)) (k : String) (v : β) :
    List (String × β) :=
  match d with
  | [] => [(k, v)]
  | (k2, v2) :: rest => if k2 = k then (k, v) :: rest else (k2, v2) :: dictSet rest k v

/-- Python substring containment `needle in hay`. -/
def pyIn (needle hay : String) : Bool :=
  decide (List.IsInfix needle.toList hay.toList)

/-- Model of Python `str.lower`: fold character case over the string
(ASCII case folding, matching `Char.toLower`). -/
def pyLower (s : String) : String :=
  String.mk (s.toList.map Char.toLower)

/-- Split a character list at every separator, keeping empty pieces. -/
def splitChars (p : Char → Bool) : List Char → List (List Char)
  | [] => [[]]
  | c :: cs =>
      let r := splitChars p cs
      if p c then [] :: r
      else
        match r with
        | [] => [[c]]
        | w :: ws => (c :: w) :: ws

/-- Python `str.split()` with no argument: split on whitespace runs,
dropping empty pieces. -/
def pySplit (s : String) : List String :=
  ((splitChars Char.isWhitespace s.toList).map (fun cs => String.mk cs)).filter
    (fun w => !(w == ""))

/-- The keys of an association list. -/
def dkeys {β : Type} (d : List (String × β)) : List String := d.map Prod.fst

/-- Embeds `ProductRepository.get_product` (repository.py:27-28). -/
def ProductRepository.get_product (repo : ProductRepository) (product_id : String) :
    Option Product :=
  dictGet repo.products product_id

/-- Embeds `ProductRepository.list_products` (repository.py:37-50). -/
def ProductRepository.list_products (repo : ProductRepository)
    (category : Option String := none) (available_only : Bool := false) :
    List Product :=
  let products := repo.products.map Prod.snd
  let products := match category with
    | some c =>
        if c = "" then products
        else products.filter (fun p => pyLower p.category = pyLower c)
    | none => products
  if available_only then products.filter (fun p => p.is_available) else products

/-- Embeds `ProductRepository.reserve_product` (repository.py:64-69); the
mutation of the stored product is made explicit in the returned repository. -/
def ProductRepository.reserve_product (repo : ProductRepository)
    (product_id : String) (quantity : Int := 1) : Bool × ProductRepository :=
  match repo.get_product product_id with
  | none => (false, repo)
  | some p =>
      let r := p.reserve quantity
      (r.1, { repo with products := dictSet repo.products product_id r.2 })

/-! ## bargaining/negotiation_engine.py

Only the decision logic of `NegotiationEngine.evaluate_offer` is modelled: the
explanation strings are drawn with `random.choice` from the YAML phrase tables
and do not influence the returned decision or price. -/

/-- The first component of the tuple returned by `evaluate_offer`. -/
inductive Decision where
  | accept
  | counter_offer
  | decline
deriving DecidableEq

/-- Embeds the decision and price parts of `NegotiationEngine.evaluate_offer`
(negotiation_engine.py:24-79); `3/2` is the literal `1.5`. -/
def evaluate_offer (product : Product) (offered_price : ℚ) : Decision × Option ℚ :=
  if ¬ product.can_bargain then
    (.decline, none)
  else if product.price ≤ offered_price then
    (.accept, some offered_price)
  else
    let discount_amount := product.price - offered_price
    let discount_percent := discount_amount / product.price * 100
    let max_discount := product.max_discount_percent
    if discount_percent ≤ max_discount then
      (.accept, some offered_price)
    else if discount_percent ≤ max_discount * (3/2) then
      (.counter_offer, product.calculate_counter_offer offered_price)
    else
      (.decline, some product.calculate_min_acceptable_price)

/-- Favorability order used by the negotiation-monotonicity property:
accept is preferred to counter_offer, which is preferred to decline. -/
def favorability : Decision → Nat
  | .decline => 0
  | .counter_offer => 1
  | .accept => 2

/-! ## dialogue/slot_manager.py -/

/-- Embeds the `Intent` enum (slot_manager.py:6-13). -/
inductive Intent where
  | product_info
  | stock_check
  | delivery_question
  | warranty_question
  | bargaining
  | meeting_planning
  | general_question
deriving DecidableEq

/-- Embeds the `Slots` pydantic model (slot_manager.py:16-34); every field
defaults to `None`.  `user_preference` is an arbitrary dict, modelled as a
string-to-string association list. -/
structure Slots where
  product_id : Option String := none
  product_name : Option String := none
  product_color : Option String := none
  product_memory : Option String := none
  product_variant : Option String := none
  offered_price : Option ℚ := none
  agreed_price : Option ℚ := none
  meeting_location : Option String := none
  meeting_date : Option String := none
  meeting_time : Option String := none
  delivery_service : Option String := none
  delivery_address : Option String := none
  city : Option String := none
  user_preference : Option (List (String × String)) := none
deriving DecidableEq

/-- Embeds `SlotRequirements.REQUIREMENTS` (slot_manager.py:38-46). -/
def SlotRequirements.REQUIREMENTS : Intent → List String
  | .product_info => []
  | .stock_check => []
  | .delivery_question => ["product_id"]
  | .warranty_question => ["product_id"]
  | .bargaining => ["product_id", "offered_price"]
  | .meeting_planning => ["product_id", "meeting_location", "meeting_date", "meeting_time"]
  | .general_question => []

/-- Python truthiness of an optional string: `None` and the empty string are
falsy. -/
def truthyStr : Option String → Bool
  | some s => !(s == "")
  | none => false

/-- `getattr(slots, slot_name, None) is None` for the slot names the
requirement table can mention (unknown attributes read as `None`). -/
def Slots.attrIsNone (s : Slots) (name : String) : Bool :=
  match name with
  | "product_id" => s.product_id.isNone
  | "product_name" => s.product_name.isNone
  | "product_color" => s.product_color.isNone
  | "product_memory" => s.product_memory.isNone
  | "product_variant" => s.product_variant.isNone
  | "offered_price" => s.offered_price.isNone
  | "agreed_price" => s.agreed_price.isNone
  | "meeting_location" => s.meeting_location.isNone
  | "meeting_date" => s.meeting_date.isNone
  | "meeting_time" => s.meeting_time.isNone
  | "delivery_service" => s.delivery_service.isNone
  | "delivery_address" => s.delivery_address.isNone
  | "city" => s.city.isNone
  | "user_preference" => s.user_preference.isNone
  | _ => true

/-- Embeds `SlotManager.check_slots_completeness` (slot_manager.py:63-83).
The loop appends, in order, every required slot whose value is `None`, except
that a missing `product_id` is skipped when `product_name` is truthy; the
filter below performs exactly that accumulation. -/
def check_slots_completeness (intent : Intent) (slots : Slots) :
    Bool × List String :=
  let required_slots := SlotRequirements.REQUIREMENTS intent
  let missing_slots := required_slots.filter (fun slot_name =>
    slots.attrIsNone slot_name &&
      !(slot_name == "product_id" && truthyStr slots.product_name))
  (missing_slots.length = 0, missing_slots)

/-- `key in entities and entities[key]`: the value of a present, truthy entity.
Entity values are modelled as strings; a Python `None` value behaves exactly
like the (falsy) empty string here. -/
def entTruthy (entities : List (String × String)) (key : String) : Option String :=
  match dictGet entities key with
  | some v => if v = "" then none else some v
  | none => none

/-- Embeds `SlotManager.extract_slots_from_entities` (slot_manager.py:112-161).
Each if-block of the source writes exactly one distinct slot field of the deep
copy, so the sequential mutation is rendered as one simultaneous record
update, field by field in source order.  `toFloat` stands for the Python
`float(...)` builtin, returning `none` when the conversion raises. -/
def extract_slots_from_entities (toFloat : String → Option ℚ)
    (entities : List (String × String)) (current_slots : Slots) : Slots where
  product_id :=
    match entTruthy entities "product_id" with
    | some v => some v
    | none => current_slots.product_id
  product_name :=
    match entTruthy entities "product_name" with
    | some v => some v
    | none => current_slots.product_name
  product_color :=
    match entTruthy entities "product_color" with
    | some v => some v
    | none =>
        match entTruthy entities "color" with
        | some v => some v
        | none => current_slots.product_color
  product_memory :=
    match entTruthy entities "product_memory" with
    | some v => some v
    | none =>
        match entTruthy entities "memory" with
        | some v => some v
        | none => current_slots.product_memory
  product_variant :=
    match entTruthy entities "variant" with
    | some v => some v
    | none => current_slots.product_variant
  offered_price :=
    match entTruthy entities "price" with
    | some v =>
        match toFloat v with
        | some q => some q
        | none => current_slots.offered_price
    | none => current_slots.offered_price
  agreed_price := current_slots.agreed_price
  meeting_location :=
    match entTruthy entities "location" with
    | some v => some v
    | none => current_slots.meeting_location
  meeting_date :=
    match entTruthy entities "date" with
    | some v => some v
    | none => current_slots.meeting_date
  meeting_time :=
    match entTruthy entities "time" with
    | some v => some v
    | none => current_slots.meeting_time
  delivery_service :=
    match entTruthy entities "delivery_service" with
    | some v => some v
    | none => current_slots.delivery_service
  delivery_address := current_slots.delivery_address
  city :=
    match entTruthy entities "city" with
    | some v => some v
    | none => current_slots.city
  user_preference := current_slots.user_preference

/-! ## agent/nodes.py: reflection and routing -/

/-- Outcome of the external critic call `llm_client.validate_response`
(nodes.py:887-899): either the returned validation dict (with its
`is_valid` and `overall_score` fields, defaulting to `True` and `7.0`) or a
raised exception, which the node catches (nodes.py:941-948). -/
inductive CriticOutcome where
  | result (is_valid : Bool) (overall_score : ℚ) (issues : List String)
      (critical_error : Option String)
  | error (msg : String)

/-- The partial state update returned by `reflection_node`; a `none` in
`regeneration_count` means the key is absent from the returned dict, so the
graph merge leaves the state's counter unchanged. -/
structure ReflectionUpdate where
  reflection_is_valid : Bool
  reflection_reason : Option String
  response_quality_score : ℚ
  needs_regeneration : Bool
  regeneration_count : Option Nat
  validation_passed : Option Bool
deriving DecidableEq

/-- Embeds `reflection_node` (nodes.py:848-948): the regeneration-budget
gate, the clarification gate, the critic call with its
`not is_valid and regeneration_count < 2` regeneration test, and the
exception fallback. -/
def reflection_node (regeneration_count : Nat) (needs_clarification : Bool)
    (has_clarification_question : Bool) (critic : CriticOutcome) :
    ReflectionUpdate :=
  if 2 ≤ regeneration_count then
    ⟨true, some "max_retries_reached", 6, false, none, none⟩
  else if needs_clarification && has_clarification_question then
    ⟨true, some "clarification_question", 8, false, none, none⟩
  else
    match critic with
    | .error _ => ⟨true, some "error_fallback", 7, false, none, none⟩
    | .result is_valid overall_score _ _ =>
        let needs_regen := !is_valid && decide (regeneration_count < 2)
        ⟨is_valid, none, overall_score, needs_regen,
          some (regeneration_count + (if needs_regen then 1 else 0)),
          some is_valid⟩

/-- The regeneration counter after the graph merges a reflection update:
an absent key leaves the previous value in place. -/
def mergedRegenerationCount (before : Nat) (u : ReflectionUpdate) : Nat :=
  u.regeneration_count.getD before

/-- Embeds the `valid_routes` dict of `route_from_intelligent_router`
(nodes.py:1023-1030). -/
def valid_routes : List (String × String) :=
  [("rag_search", "rag_search"),
   ("stock_check", "stock_check"),
   ("delivery_check", "delivery_check"),
   ("bargaining", "bargaining"),
   ("meeting_planning", "meeting_planning"),
   ("generate_response", "generate_response")]

/-- The fixed capability set of the routing layer (the keys of
`valid_routes`). -/
def actionSet : List String :=
  ["rag_search", "stock_check", "delivery_check", "bargaining",
   "meeting_planning", "generate_response"]

/-- Embeds `route_from_intelligent_router` (nodes.py:1016-1032):
`state.get('routing_decision', 'rag_search')` followed by
`valid_routes.get(routing_decision, 'rag_search')`. -/
def route_from_intelligent_router (routing_decision : Option String) : String :=
  let rd := routing_decision.getD "rag_search"
  (dictGet valid_routes rd).getD "rag_search"

/-- Embeds `route_by_complexity` (nodes.py:1056-1103).  The state reads are
passed explicitly: `slots_product_name` and `slots_product_id` are
`slots.get(...)`, `state_product_id` is `state.get('product_id')`; note the
source tests `is not None` for the name but truthiness for the ids. -/
def route_by_complexity (intent_confidence : ℚ) (slots_complete : Bool)
    (intent : String) (slots_product_name slots_product_id state_product_id :
    Option String) : String :=
  let complex_intents := ["bargaining", "meeting_planning"]
  let product_dependent_intents :=
    ["delivery_question", "bargaining", "warranty_question", "meeting_planning"]
  let is_complex :=
    if intent ∈ complex_intents then
      true
    else if intent ∈ product_dependent_intents then
      let has_product_name := slots_product_name.isSome
      let has_product_id := truthyStr slots_product_id || truthyStr state_product_id
      has_product_name && !has_product_id
    else if intent_confidence < 7/10 && !slots_complete then
      true
    else
      false
  if is_complex then "planning" else "intelligent_router"

/-! ## rag/hybrid_retriever.py -/

/-- The metadata dict built for a keyword hit (hybrid_retriever.py:63-68). -/
structure KwMetadata where
  category : String
  price : ℚ
  product_id : String
  title : String
deriving DecidableEq

/-- One element of the `_keyword_search` result list
(hybrid_retriever.py:59-69), generic in the metadata payload so the same
shape also feeds `_combine_results`. -/
structure KwResult (M : Type) where
  product_id : String
  score : ℚ
  title : String
  metadata : M
deriving DecidableEq

/-- One element of the semantic-search result list consumed by
`_combine_results` (hybrid_retriever.py:116-124): its text, score, opaque
metadata, and the value of `result['metadata'].get('product_id')` lifted out
as a separate field. -/
structure SemResult (M : Type) where
  text : String
  product_id : Option String
  metadata : M
  score : ℚ
deriving DecidableEq

/-- The per-product accumulator value of the `combined` dict in
`_combine_results` (hybrid_retriever.py:114-140). -/
structure CombData (M : Type) where
  text : String
  metadata : M
  semantic_score : ℚ
  keyword_score : ℚ
deriving DecidableEq

/-- One element of the final fused result list
(hybrid_retriever.py:149-156). -/
structure FinalEntry (M : Type) where
  text : String
  metadata : M
  score : ℚ
  semantic_score : ℚ
  keyword_score : ℚ
  id : String
deriving DecidableEq

/-- Stable insertion of one element into a descending-by-score list; the
element goes after every earlier element of greater-or-equal score, which is
the placement Python's stable `list.sort(reverse=True)` gives it. -/
def insertByScore {α : Type} (score : α → ℚ) (e : α) : List α → List α
  | [] => [e]
  | x :: xs => if score x ≤ score e then e :: x :: xs else x :: insertByScore score e xs

/-- Stable descending sort by score, the model of
`results.sort(key=..., reverse=True)`. -/
def sortByScoreDesc {α : Type} (score : α → ℚ) (l : List α) : List α :=
  l.foldr (insertByScore score) []

/-- The score `_keyword_search` assigns one product
(hybrid_retriever.py:40-56); `8/10` is the literal `0.8`. -/
def keywordScore (query_lower : String) (p : Product) : ℚ :=
  let title_lower := pyLower p.title
  let category_lower := pyLower p.category
  let score : ℚ :=
    if pyIn query_lower title_lower then 1
    else
      let query_words := pySplit query_lower
      let numMatches := (query_words.filter (fun qw => pyIn qw title_lower)).length
      if 0 < numMatches then (numMatches : ℚ) / (query_words.length : ℚ) * (8/10) else 0
  if pyIn query_lower category_lower then max score (1/2) else score

/-- Embeds `HybridRetriever._keyword_search` (hybrid_retriever.py:35-72):
score every catalog entry, keep the ones scoring strictly above `0.3`, sort
by score descending, truncate to `top_k`. -/
def keyword_search (repo : ProductRepository) (query : String) (top_k : Nat) :
    List (KwResult KwMetadata) :=
  let query_lower := pyLower query
  let all_products := repo.list_products
  let results := all_products.filterMap (fun p =>
    let score := keywordScore query_lower p
    if 3/10 < score then
      some ⟨p.id, score, p.title, ⟨p.category, p.price, p.id, p.title⟩⟩
    else none)
  (sortByScoreDesc (fun r => r.score) results).take top_k

/-- Embeds `HybridRetriever._format_product` (hybrid_retriever.py:161-172);
the numeric interpolations use Lean's rendering of the numbers. -/
def format_product (p : Product) : String :=
  let chars := String.intercalate "\n"
    (p.characteristics.map (fun kv => kv.1 ++ ": " ++ kv.2))
  p.title ++ "\n\nКатегория: " ++ p.category ++ "\nОписание: " ++ p.description
    ++ "\n\nХарактеристики:\n" ++ chars ++ "\n\nЦена: " ++ toString p.price
    ++ " руб.\nНаличие: " ++ toString p.stock ++ " шт."

/-- First pass of `_combine_results` (hybrid_retriever.py:116-124): insert a
semantic result under its truthy product id with keyword score `0`. -/
def insertSem {M : Type} (acc : List (String × CombData M)) (r : SemResult M) :
    List (String × CombData M) :=
  match r.product_id with
  | some pid =>
      if pid = "" then acc
      else dictSet acc pid ⟨r.text, r.metadata, r.score, 0⟩
  | none => acc

/-- Second pass of `_combine_results` (hybrid_retriever.py:127-140): merge a
keyword result into an existing entry, or insert it with semantic score `0`
when the repository knows the product. -/
def insertKw {M : Type} (repo : ProductRepository)
    (acc : List (String × CombData M)) (r : KwResult M) :
    List (String × CombData M) :=
  match dictGet acc r.product_id with
  | some d => dictSet acc r.product_id { d with keyword_score := r.score }
  | none =>
      match repo.get_product r.product_id with
      | some p => dictSet acc r.product_id ⟨format_product p, r.metadata, 0, r.score⟩
      | none => acc

/-- Embeds `HybridRetriever._combine_results` (hybrid_retriever.py:109-159),
with the instance weights passed explicitly. -/
def combine_results {M : Type} (repo : ProductRepository)
    (semantic_weight keyword_weight : ℚ) (semantic_results : List (SemResult M))
    (keyword_results : List (KwResult M)) : List (FinalEntry M) :=
  let combined := semantic_results.foldl insertSem []
  let combined := keyword_results.foldl (insertKw repo) combined
  let final_results := combined.map (fun kv =>
    ⟨kv.2.text, kv.2.metadata,
      kv.2.semantic_score * semantic_weight + kv.2.keyword_score * keyword_weight,
      kv.2.semantic_score, kv.2.keyword_score, "product_" ++ kv.1⟩)
  sortByScoreDesc (fun e => e.score) final_results

/-- The weight normalization of `HybridRetriever.__init__`
(hybrid_retriever.py:19-21): both weights are divided by their sum. -/
def normalizeWeights (semantic_weight keyword_weight : ℚ) : ℚ × ℚ :=
  let total := semantic_weight + keyword_weight
  (semantic_weight / total, keyword_weight / total)

/-- Embeds the threshold-plus-adaptive-cutoff filter of
`HybridRetriever.retrieve` (hybrid_retriever.py:99-104): drop entries below
`score_threshold`, then keep only entries within `0.3` of the score of the
first survivor. -/
def thresholdAdaptiveFilter {M : Type} (score_threshold : ℚ)
    (combined_results : List (FinalEntry M)) : List (FinalEntry M) :=
  let filtered_results := combined_results.filter
    (fun r => score_threshold ≤ r.score)
  match filtered_results with
  | [] => filtered_results
  | top :: _ =>
      let adaptive_threshold := max score_threshold (top.score - 3/10)
      filtered_results.filter (fun r => adaptive_threshold ≤ r.score)

/-- Descending-sortedness by score, the order `retrieve` feeds its filter. -/
def SortedDescByScore {M : Type} (l : List (FinalEntry M)) : Prop :=
  l.Chain' (fun a b => b.score ≤ a.score)

/-- The truthy product id of a semantic result: the value of
`result['metadata'].get('product_id')` when it is present and non-empty. -/
def truthyPid {M : Type} (r : SemResult M) : Option String :=
  match r.product_id with
  | some q => if q = "" then none else some q
  | none => none

/-- The truthy product ids occurring in a semantic result list. -/
def semTruthyPids {M : Type} (sem : List (SemResult M)) : List String :=
  sem.filterMap truthyPid

/-- The last semantic result carrying a given truthy product id — the one
whose data survives the first pass of `_combine_results`. -/
def semFindLast {M : Type} (sem : List (SemResult M)) (pid : String) :
    Option (SemResult M) :=
  match sem with
  | [] => none
  | r :: rest =>
      match semFindLast rest pid with
      | some x => some x
      | none => if truthyPid r = some pid then some r else none

/-- The first keyword result carrying a given product id. -/
def kwFind {M : Type} (kw : List (KwResult M)) (pid : String) :
    Option (KwResult M) :=
  match kw with
  | [] => none
  | r :: rest => if r.product_id = pid then some r else kwFind rest pid

/-! ## Concrete sample data used to instantiate the properties -/

/-- A fixed-price listing: bargaining switched off. -/
def prodFixed : Product :=
  ⟨"p1", "Ноутбук", "Электроника", 100, 50, 3, 1, ⟨10, 10, 10⟩, "",
    [], "", "", false, 10, []⟩

/-- A bargainable listing whose `min_price` floor sits above the
max-discount line: price 100, min 95, max discount 10 percent. -/
def prodFloor : Product :=
  ⟨"p2", "Телефон", "Электроника", 100, 95, 3, 1, ⟨10, 10, 10⟩, "",
    [], "", "", true, 10, []⟩

/-- A catalog entry whose keyword score against `queryEdge` is exactly 0.3:
three of the eight query words occur in the title. -/
def prodEdge : Product :=
  ⟨"p3", "a b c", "z", 100, 50, 3, 1, ⟨10, 10, 10⟩, "",
    [], "", "", true, 10, []⟩

/-- Eight-word query of which exactly three words hit `prodEdge`. -/
def queryEdge : String := "a b c q1 q2 q3 q4 q5"

/-- One-product repository around `prodEdge`. -/
def repoEdge : ProductRepository := ⟨[("p3", prodEdge)]⟩

/-- Slots carrying only a product name, for the substitution rule. -/
def slotsNameOnly : Slots := { product_name := some "iPhone 13" }

/-! # Theorems

General-purpose lemmas about the embedded dictionary, sorting and folding
operations come first; the claim theorems follow. -/

theorem dictGet_dictSet_self {β : Type} (d : List (String × β)) (k : String)
    (v : β) : dictGet (dictSet d k v) k = some v := by
  induction d with
  | nil => simp [dictGet, dictSet]
  | cons hd tl ih =>
      obtain ⟨k2, v2⟩ := hd
      by_cases h : k2 = k
      · simp [dictGet, dictSet, h]
      · simp [dictGet, dictSet, h, ih]

theorem dictGet_dictSet_ne {β : Type} (d : List (String × β)) (k k2 : String)
    (v : β) (h : k2 ≠ k) : dictGet (dictSet d k v) k2 = dictGet d k2 := by
  induction d with
  | nil => simp [dictGet, dictSet, Ne.symm h]
  | cons hd tl ih =>
      obtain ⟨k3, v3⟩ := hd
      simp only [dictSet]
      by_cases h3 : k3 = k
      · subst h3
        simp [dictGet, Ne.symm h]
      · rw [if_neg h3]
        simp only [dictGet]
        by_cases h32 : k3 = k2
        · simp [h32]
        · simp [h32, ih]

theorem dkeys_dictSet {β : Type} (d : List (String × β)) (k : String) (v : β) :
    dkeys (dictSet d k v) = if k ∈ dkeys d then dkeys d else dkeys d ++ [k] := by
  induction d with
  | nil => simp [dkeys, dictSet]
  | cons hd tl ih =>
      obtain ⟨k2, v2⟩ := hd
      by_cases h : k2 = k
      · subst h
        simp [dkeys, dictSet]
      · have hne : ¬ k = k2 := fun hh => h hh.symm
        simp only [dkeys, dictSet, if_neg h, List.map_cons, List.mem_cons]
        simp only [dkeys] at ih
        rw [ih]
        by_cases hmem : k ∈ tl.map Prod.fst
        · simp [hmem, hne]
        · simp [hmem, hne]

theorem nodup_dkeys_dictSet {β : Type} (d : List (String × β)) (k : String)
    (v : β) (h : (dkeys d).Nodup) : (dkeys (dictSet d k v)).Nodup := by
  rw [dkeys_dictSet]
  by_cases hmem : k ∈ dkeys d
  · simpa [hmem] using h
  · rw [if_neg hmem, List.nodup_append]
    refine ⟨h, List.nodup_singleton _, ?_⟩
    intro a ha
    simp only [List.mem_singleton]
    exact fun hak => hmem (hak ▸ ha)

theorem mem_of_dictGet {β : Type} (d : List (String × β)) (k : String) (v : β)
    (h : dictGet d k = some v) : (k, v) ∈ d := by
  induction d with
  | nil => simp [dictGet] at h
  | cons hd tl ih =>
      obtain ⟨k2, v2⟩ := hd
      by_cases h2 : k2 = k
      · subst h2
        simp [dictGet] at h
        simp [h]
      · simp [dictGet, h2] at h
        exact List.mem_cons_of_mem _ (ih h)

theorem insertByScore_perm {α : Type} (f : α → ℚ) (e : α) (l : List α) :
    (insertByScore f e l).Perm (e :: l) := by
  induction l with
  | nil => simp [insertByScore]
  | cons x xs ih =>
      simp only [insertByScore]
      by_cases h : f x ≤ f e
      · simp [h]
      · rw [if_neg h]
        exact (ih.cons x).trans (List.Perm.swap e x xs)

theorem sortByScoreDesc_perm {α : Type} (f : α → ℚ) (l : List α) :
    (sortByScoreDesc f l).Perm l := by
  induction l with
  | nil => simp [sortByScoreDesc]
  | cons x xs ih =>
      simp only [sortByScoreDesc, List.foldr_cons]
      exact (insertByScore_perm f x _).trans (ih.cons x)

theorem mem_sortByScoreDesc {α : Type} (f : α → ℚ) (l : List α) (a : α) :
    a ∈ sortByScoreDesc f l ↔ a ∈ l :=
  (sortByScoreDesc_perm f l).mem_iff

theorem length_sortByScoreDesc {α : Type} (f : α → ℚ) (l : List α) :
    (sortByScoreDesc f l).length = l.length :=
  (sortByScoreDesc_perm f l).length_eq

/-- Helper: the stock stays nonnegative through one reservation attempt. -/
theorem reserve_stock_nonneg (p : Product) (q : Int) (h : 0 ≤ p.stock) :
    0 ≤ (p.reserve q).2.stock := by
  unfold Product.reserve
  by_cases hq : q ≤ p.stock
  · simp only [if_pos hq]
    omega
  · simpa [hq] using h

/-- Helper: the stock stays nonnegative through any sequence of
reservation attempts. -/
theorem reserve_seq_stock_nonneg (qs : List Int) (p : Product)
    (h : 0 ≤ p.stock) :
    0 ≤ (qs.foldl (fun st q => (st.reserve q).2) p).stock := by
  induction qs generalizing p with
  | nil => exact h
  | cons q rest ih => exact ih _ (reserve_stock_nonneg p q h)

/-- C10: `Product.reserve` succeeds and decrements exactly when the stock
covers the requested quantity, fails leaving the product unchanged
otherwise, keeps the stock nonnegative over any sequence of reservation
attempts, and `ProductRepository.reserve_product` on an unknown id returns
`False` without touching the repository. -/
theorem c10_reserve_never_negative (p : Product) (q : Int)
    (repo : ProductRepository) (pid : String) (qs : List Int)
    (h0 : 0 ≤ p.stock) :
    (q ≤ p.stock → p.reserve q = (true, { p with stock := p.stock - q }))
    ∧ (p.stock < q → p.reserve q = (false, p))
    ∧ 0 ≤ (p.reserve q).2.stock
    ∧ 0 ≤ (qs.foldl (fun st qq => (st.reserve qq).2) p).stock
    ∧ (repo.get_product pid = none → repo.reserve_product pid q = (false, repo)) := by
  refine ⟨?_, ?_, reserve_stock_nonneg p q h0, reserve_seq_stock_nonneg qs p h0, ?_⟩
  · intro hq
    simp [Product.reserve, hq]
  · intro hq
    have : ¬ q ≤ p.stock := by omega
    simp [Product.reserve, this]
  · intro hnone
    simp [ProductRepository.reserve_product, hnone]

/-- Witness for C10 at a concrete product, quantity and repository. -/
theorem c10_witness :
    prodFixed.reserve 2 = (true, { prodFixed with stock := 1 })
    ∧ (ProductRepository.reserve_product ⟨[]⟩ "nope" 1 = (false, ⟨[]⟩)) := by
  have h := c10_reserve_never_negative prodFixed 2 ⟨[]⟩ "nope" [] (by decide)
  exact ⟨h.1 (by decide), h.2.2.2.2 (by decide)⟩

/-- C6: `check_slots_completeness` never reports `product_id` missing while
a truthy `product_name` is present, whatever the intent. -/
theorem c6_product_name_substitution (intent : Intent) (slots : Slots)
    (hid : slots.product_id = none)
    (hname : truthyStr slots.product_name = true) :
    "product_id" ∉ (check_slots_completeness intent slots).2 := by
  intro hmem
  simp only [check_slots_completeness] at hmem
  have hp := (List.mem_filter.mp hmem).2
  simp [Slots.attrIsNone, hid, hname] at hp

/-- Witness for C6: the bargaining intent with only a product name does not
list `product_id` as missing. -/
theorem c6_witness :
    "product_id" ∉ (check_slots_completeness .bargaining slotsNameOnly).2 :=
  c6_product_name_substitution .bargaining slotsNameOnly rfl (by decide)

/-- C3 (amended): the routed action always lies in the fixed capability set,
and an out-of-set routing decision is coerced to `rag_search` — not to
`generate_response` as the claim states. -/
theorem c3_route_coercion (routing_decision : Option String) :
    route_from_intelligent_router routing_decision ∈ actionSet
    ∧ (routing_decision.getD "rag_search" ∉ actionSet →
        route_from_intelligent_router routing_decision = "rag_search") := by
  simp only [route_from_intelligent_router]
  set rd := routing_decision.getD "rag_search" with hrd
  constructor
  · simp only [valid_routes, dictGet, actionSet]
    by_cases h1 : "rag_search" = rd
    · simp [h1]
    by_cases h2 : "stock_check" = rd
    · simp [h1, h2]
    by_cases h3 : "delivery_check" = rd
    · simp [h1, h2, h3]
    by_cases h4 : "bargaining" = rd
    · simp [h1, h2, h3, h4]
    by_cases h5 : "meeting_planning" = rd
    · simp [h1, h2, h3, h4, h5]
    by_cases h6 : "generate_response" = rd
    · simp [h1, h2, h3, h4, h5, h6]
    · simp [h1, h2, h3, h4, h5, h6]
  · intro hout
    have h1 : ¬ "rag_search" = rd := fun h => hout (h ▸ by simp [actionSet])
    have h2 : ¬ "stock_check" = rd := fun h => hout (h ▸ by simp [actionSet])
    have h3 : ¬ "delivery_check" = rd := fun h => hout (h ▸ by simp [actionSet])
    have h4 : ¬ "bargaining" = rd := fun h => hout (h ▸ by simp [actionSet])
    have h5 : ¬ "meeting_planning" = rd := fun h => hout (h ▸ by simp [actionSet])
    have h6 : ¬ "generate_response" = rd := fun h => hout (h ▸ by simp [actionSet])
    simp [valid_routes, dictGet, h1, h2, h3, h4, h5, h6]

/-- Witness for C3 at a concrete out-of-set decision. -/
theorem c3_witness :
    route_from_intelligent_router (some "escalate_to_human") = "rag_search" :=
  (c3_route_coercion (some "escalate_to_human")).2 (by decide)

/-- Counterexample to C3 as stated: an out-of-set routing decision is
coerced to `rag_search`, not to `generate_response`. -/
theorem c3_counterexample :
    route_from_intelligent_router (some "escalate") = "rag_search"
    ∧ route_from_intelligent_router (some "escalate") ≠ "generate_response" := by
  decide

/-- C5 (amended): the complexity router returns either `planning` or
`intelligent_router`; it returns `planning` exactly when (1) the intent is
always-complex, or (2) the intent is product-dependent with a present
product name and no truthy product id, or (3) the intent is in neither
list, the confidence is below 0.7 and the slots are incomplete.  In
particular the low-confidence rule is never evaluated for product-dependent
intents that fail rule 2 — contrary to the claim. -/
theorem c5_complexity_rules (conf : ℚ) (complete : Bool) (intent : String)
    (pname pid spid : Option String) :
    (route_by_complexity conf complete intent pname pid spid = "planning"
      ∨ route_by_complexity conf complete intent pname pid spid = "intelligent_router")
    ∧ (route_by_complexity conf complete intent pname pid spid = "planning" ↔
        (intent ∈ (["bargaining", "meeting_planning"] : List String)
        ∨ (intent ∉ (["bargaining", "meeting_planning"] : List String)
            ∧ intent ∈ (["delivery_question", "bargaining", "warranty_question",
                "meeting_planning"] : List String)
            ∧ pname.isSome = true
            ∧ truthyStr pid = false ∧ truthyStr spid = false)
        ∨ (intent ∉ (["bargaining", "meeting_planning"] : List String)
            ∧ intent ∉ (["delivery_question", "bargaining", "warranty_question",
                "meeting_planning"] : List String)
            ∧ conf < 7/10 ∧ complete = false))) := by
  simp only [route_by_complexity]
  by_cases h1 : intent ∈ (["bargaining", "meeting_planning"] : List String)
  · simp [h1]
  · by_cases h2 : intent ∈ (["delivery_question", "bargaining", "warranty_question",
        "meeting_planning"] : List String)
    · simp only [if_neg h1, if_pos h2]
      by_cases hn : pname.isSome
      · by_cases hid : (truthyStr pid || truthyStr spid) = true
        · simp_all
        · simp_all
      · simp_all
    · simp only [if_neg h1, if_neg h2]
      by_cases hc : conf < 7/10
      · by_cases hs : complete
        · simp_all
        · simp_all
      · simp_all

/-- Witness for C5: a bargaining intent routes to planning. -/
theorem c5_witness :
    route_by_complexity 1 true "bargaining" none none none = "planning" :=
  ((c5_complexity_rules 1 true "bargaining" none none none).2).mpr
    (Or.inl (by decide))

/-- Counterexample to C5 as stated: a product-dependent intent with no
product name, low confidence and incomplete slots — rules 1 and 2 do not
match, rule 3's condition holds, yet the router goes straight to the
intelligent router instead of planning. -/
theorem c5_counterexample :
    route_by_complexity (1/2) false "delivery_question" none none none
      = "intelligent_router"
    ∧ "delivery_question" ∉ (["bargaining", "meeting_planning"] : List String)
    ∧ (none : Option String).isSome = false
    ∧ (1/2 : ℚ) < 7/10
    ∧ route_by_complexity (1/2) false "delivery_question" none none none
      ≠ "planning" := by
  refine ⟨rfl, by decide, rfl, by norm_num, by decide⟩

/-- C1: once the regeneration budget is hit, `reflection_node` forces
validation to pass (`needs_regeneration = False` whatever the critic says);
the merged regeneration counter never decreases, never exceeds 2, and grows
only when a regeneration is requested. -/
theorem c1_regeneration_bound (count : Nat) (h : count ≤ 2)
    (needs_clarification has_question : Bool) (critic : CriticOutcome) :
    (2 ≤ count →
      (reflection_node count needs_clarification has_question critic).needs_regeneration
        = false)
    ∧ count ≤ mergedRegenerationCount count
        (reflection_node count needs_clarification has_question critic)
    ∧ mergedRegenerationCount count
        (reflection_node count needs_clarification has_question critic) ≤ 2
    ∧ (count < mergedRegenerationCount count
        (reflection_node count needs_clarification has_question critic) →
      (reflection_node count needs_clarification has_question critic).needs_regeneration
        = true) := by
  by_cases h2 : 2 ≤ count
  · simp [reflection_node, mergedRegenerationCount, h2, h]
  · have hlt : count < 2 := by omega
    by_cases hcl : (needs_clarification && has_question) = true
    · simp [reflection_node, mergedRegenerationCount, h2, hcl, h]
    · cases critic with
      | error m =>
          simp [reflection_node, mergedRegenerationCount, h2, hcl, h]
      | result is_valid score issues critical =>
          cases is_valid with
          | true =>
              simp [reflection_node, mergedRegenerationCount, h2, hcl, h]
          | false =>
              simp [reflection_node, mergedRegenerationCount, h2, hcl, hlt]
              omega

/-- Witness for C1 at the exhausted budget with a failing critique. -/
theorem c1_witness :
    (reflection_node 2 false false (.result false 0 [] none)).needs_regeneration
      = false :=
  (c1_regeneration_bound 2 (by decide) false false
    (.result false 0 [] none)).1 (by decide)

theorem favorability_le_two (d : Decision) : favorability d ≤ 2 := by
  cases d <;> simp [favorability]

/-- Helper: a non-bargainable product always yields an outright decline. -/
theorem evaluate_offer_no_bargain (p : Product) (x : ℚ)
    (h : p.can_bargain = false) : evaluate_offer p x = (.decline, none) := by
  simp [evaluate_offer, h]

/-- Helper: with bargaining allowed, an offer at or above list price is
accepted. -/
theorem evaluate_offer_high (p : Product) (x : ℚ) (h : p.can_bargain = true)
    (hx : p.price ≤ x) : evaluate_offer p x = (.accept, some x) := by
  simp [evaluate_offer, h, hx]

/-- Helper: below list price the decision is determined by the discount
percentage against the max-discount and its 1.5-fold. -/
theorem evaluate_offer_below (p : Product) (x : ℚ) (h : p.can_bargain = true)
    (hx : x < p.price) :
    (evaluate_offer p x).1 =
      if (p.price - x) / p.price * 100 ≤ p.max_discount_percent then .accept
      else if (p.price - x) / p.price * 100 ≤ p.max_discount_percent * (3/2)
        then .counter_offer
      else .decline := by
  simp only [evaluate_offer]
  rw [if_neg (not_not_intro h), if_neg (not_le.mpr hx)]
  split_ifs <;> rfl

/-- Helper: the discount percentage is antitone in the offered price. -/
theorem discount_percent_antitone (P : ℚ) (hp : 0 < P) (x y : ℚ)
    (hxy : x ≤ y) : (P - y) / P * 100 ≤ (P - x) / P * 100 := by
  have h1 : P - y ≤ P - x := by linarith
  gcongr

/-- C4 (amended): for a product with bargaining allowed and a positive
price, `evaluate_offer` accepts every offer at or above list price,
declines exactly the offers whose discount exceeds 1.5 times the max
discount (price strictly below `(100 - 1.5·max)·price/100` — so offers at
or above that line are never declined), and its decision is monotonically
non-decreasing in favorability as the offer grows.  The original claim
fails for non-bargainable products and for offers between the `min_price`
floor and the max-discount line. -/
theorem c4_negotiation_monotonicity (p : Product) (x y : ℚ)
    (hp : 0 < p.price) (hcb : p.can_bargain = true) (hxy : x ≤ y) :
    (p.price ≤ x → (evaluate_offer p x).1 = .accept)
    ∧ ((evaluate_offer p x).1 = .decline ↔
        x < (100 - p.max_discount_percent * (3/2)) * p.price / 100)
    ∧ favorability (evaluate_offer p x).1 ≤ favorability (evaluate_offer p y).1 := by
  have hm : 0 < p.max_discount_percent := by
    have h2 := hcb
    simp [Product.can_bargain] at h2
    exact h2.2
  refine ⟨?_, ⟨?_, ?_⟩, ?_⟩
  · intro hx
    rw [evaluate_offer_high p x hcb hx]
  · intro hdec
    by_contra hge
    push_neg at hge
    rcases le_or_lt p.price x with hxP | hxP
    · rw [evaluate_offer_high p x hcb hxP] at hdec
      cases hdec
    · have hle : (100 - p.max_discount_percent * (3/2)) * p.price ≤ x * 100 :=
        (div_le_iff₀ (by norm_num : (0:ℚ) < 100)).mp hge
      have hd : (p.price - x) / p.price * 100 ≤ p.max_discount_percent * (3/2) := by
        rw [div_mul_eq_mul_div, div_le_iff₀ hp]
        nlinarith
      rw [evaluate_offer_below p x hcb hxP] at hdec
      by_cases h1 : (p.price - x) / p.price * 100 ≤ p.max_discount_percent
      · rw [if_pos h1] at hdec
        cases hdec
      · rw [if_neg h1, if_pos hd] at hdec
        cases hdec
  · intro hx
    have hthr : (100 - p.max_discount_percent * (3/2)) * p.price / 100 ≤ p.price := by
      rw [div_le_iff₀ (by norm_num : (0:ℚ) < 100)]
      nlinarith [mul_pos hm hp]
    have hxP : x < p.price := lt_of_lt_of_le hx hthr
    have hmul : x * 100 < (100 - p.max_discount_percent * (3/2)) * p.price :=
      (lt_div_iff₀ (by norm_num : (0:ℚ) < 100)).mp hx
    have hd : p.max_discount_percent * (3/2) < (p.price - x) / p.price * 100 := by
      rw [div_mul_eq_mul_div, lt_div_iff₀ hp]
      nlinarith
    rw [evaluate_offer_below p x hcb hxP,
      if_neg (not_le.mpr (lt_of_le_of_lt (by linarith) hd)),
      if_neg (not_le.mpr hd)]
  · rcases le_or_lt p.price x with hxP | hxP
    · rw [evaluate_offer_high p x hcb hxP,
        evaluate_offer_high p y hcb (le_trans hxP hxy)]
    · rcases le_or_lt p.price y with hyP | hyP
      · rw [evaluate_offer_high p y hcb hyP]
        simpa [favorability] using favorability_le_two (evaluate_offer p x).1
      · rw [evaluate_offer_below p x hcb hxP, evaluate_offer_below p y hcb hyP]
        have hanti := discount_percent_antitone p.price hp x y hxy
        by_cases h1 : (p.price - x) / p.price * 100 ≤ p.max_discount_percent
        · rw [if_pos h1, if_pos (le_trans hanti h1)]
        · rw [if_neg h1]
          by_cases h2 : (p.price - x) / p.price * 100
              ≤ p.max_discount_percent * (3/2)
          · rw [if_pos h2]
            by_cases h1y : (p.price - y) / p.price * 100 ≤ p.max_discount_percent
            · rw [if_pos h1y]
              simp [favorability]
            · rw [if_neg h1y, if_pos (le_trans hanti h2)]
          · rw [if_neg h2]
            simp [favorability]

/-- Witness for C4: the bargainable sample product accepts its own list
price. -/
theorem c4_witness : (evaluate_offer prodFloor 100).1 = .accept :=
  (c4_negotiation_monotonicity prodFloor 100 100
    (by norm_num [prodFloor]) (by norm_num [Product.can_bargain, prodFloor])
    le_rfl).1 (by norm_num [prodFloor])

/-- Counterexample to C4 as stated: a non-bargainable product declines an
offer equal to its list price, and an offer strictly below the minimum
acceptable price floor (94 against floor 95) is accepted, not declined,
because it is within the max discount. -/
theorem c4_counterexample :
    (prodFixed.price ≤ 100 ∧ (evaluate_offer prodFixed 100).1 ≠ .accept)
    ∧ ((94 : ℚ) < prodFloor.calculate_min_acceptable_price
        ∧ (evaluate_offer prodFloor 94).1 ≠ .decline) := by
  refine ⟨⟨by norm_num [prodFixed], ?_⟩, ⟨?_, ?_⟩⟩
  · rw [evaluate_offer_no_bargain prodFixed 100
      (by norm_num [Product.can_bargain, prodFixed])]
    decide
  · have : prodFloor.calculate_min_acceptable_price = 95 := by
      norm_num [Product.calculate_min_acceptable_price, prodFloor]
    rw [this]
    norm_num
  · rw [evaluate_offer_below prodFloor 94
      (by norm_num [Product.can_bargain, prodFloor]) (by norm_num [prodFloor]),
      if_pos (by norm_num [prodFloor])]
    decide

/-- C9: slot extraction is a non-destructive merge.  With an empty entity
map the slots come back unchanged; every slot field whose entity keys are
absent or falsy is preserved exactly; fields with no entity source at all
(`agreed_price`, `delivery_address`, `user_preference`) are always
preserved; and no previously set field is ever cleared back to `None`. -/
theorem c9_slot_merge_purity (toFloat : String → Option ℚ)
    (entities : List (String × String)) (cur : Slots) :
    (extract_slots_from_entities toFloat [] cur = cur)
    ∧ (entTruthy entities "product_id" = none →
        (extract_slots_from_entities toFloat entities cur).product_id = cur.product_id)
    ∧ (entTruthy entities "product_name" = none →
        (extract_slots_from_entities toFloat entities cur).product_name = cur.product_name)
    ∧ (entTruthy entities "product_color" = none → entTruthy entities "color" = none →
        (extract_slots_from_entities toFloat entities cur).product_color = cur.product_color)
    ∧ (entTruthy entities "product_memory" = none → entTruthy entities "memory" = none →
        (extract_slots_from_entities toFloat entities cur).product_memory = cur.product_memory)
    ∧ (entTruthy entities "variant" = none →
        (extract_slots_from_entities toFloat entities cur).product_variant = cur.product_variant)
    ∧ (entTruthy entities "price" = none →
        (extract_slots_from_entities toFloat entities cur).offered_price = cur.offered_price)
    ∧ (extract_slots_from_entities toFloat entities cur).agreed_price = cur.agreed_price
    ∧ (entTruthy entities "location" = none →
        (extract_slots_from_entities toFloat entities cur).meeting_location = cur.meeting_location)
    ∧ (entTruthy entities "date" = none →
        (extract_slots_from_entities toFloat entities cur).meeting_date = cur.meeting_date)
    ∧ (entTruthy entities "time" = none →
        (extract_slots_from_entities toFloat entities cur).meeting_time = cur.meeting_time)
    ∧ (entTruthy entities "delivery_service" = none →
        (extract_slots_from_entities toFloat entities cur).delivery_service = cur.delivery_service)
    ∧ (extract_slots_from_entities toFloat entities cur).delivery_address = cur.delivery_address
    ∧ (entTruthy entities "city" = none →
        (extract_slots_from_entities toFloat entities cur).city = cur.city)
    ∧ (extract_slots_from_entities toFloat entities cur).user_preference = cur.user_preference
    ∧ (cur.product_id.isSome = true →
        (extract_slots_from_entities toFloat entities cur).product_id.isSome = true)
    ∧ (cur.product_name.isSome = true →
        (extract_slots_from_entities toFloat entities cur).product_name.isSome = true)
    ∧ (cur.product_color.isSome = true →
        (extract_slots_from_entities toFloat entities cur).product_color.isSome = true)
    ∧ (cur.product_memory.isSome = true →
        (extract_slots_from_entities toFloat entities cur).product_memory.isSome = true)
    ∧ (cur.product_variant.isSome = true →
        (extract_slots_from_entities toFloat entities cur).product_variant.isSome = true)
    ∧ (cur.offered_price.isSome = true →
        (extract_slots_from_entities toFloat entities cur).offered_price.isSome = true)
    ∧ (cur.meeting_location.isSome = true →
        (extract_slots_from_entities toFloat entities cur).meeting_location.isSome = true)
    ∧ (cur.meeting_date.isSome = true →
        (extract_slots_from_entities toFloat entities cur).meeting_date.isSome = true)
    ∧ (cur.meeting_time.isSome = true →
        (extract_slots_from_entities toFloat entities cur).meeting_time.isSome = true)
    ∧ (cur.delivery_service.isSome = true →
        (extract_slots_from_entities toFloat entities cur).delivery_service.isSome = true)
    ∧ (cur.city.isSome = true →
        (extract_slots_from_entities toFloat entities cur).city.isSome = true) := by
  refine ⟨?_, ?_, ?_, ?_, ?_, ?_, ?_, rfl, ?_, ?_, ?_, ?_, rfl, ?_, rfl,
    ?_, ?_, ?_, ?_, ?_, ?_, ?_, ?_, ?_, ?_, ?_⟩
  · rfl
  · intro h
    simp [extract_slots_from_entities, h]
  · intro h
    simp [extract_slots_from_entities, h]
  · intro h h2
    simp [extract_slots_from_entities, h, h2]
  · intro h h2
    simp [extract_slots_from_entities, h, h2]
  · intro h
    simp [extract_slots_from_entities, h]
  · intro h
    simp [extract_slots_from_entities, h]
  · intro h
    simp [extract_slots_from_entities, h]
  · intro h
    simp [extract_slots_from_entities, h]
  · intro h
    simp [extract_slots_from_entities, h]
  · intro h
    simp [extract_slots_from_entities, h]
  · intro h
    simp [extract_slots_from_entities, h]
  · intro h
    cases hk : entTruthy entities "product_id" <;>
      simp [extract_slots_from_entities, hk, h]
  · intro h
    cases hk : entTruthy entities "product_name" <;>
      simp [extract_slots_from_entities, hk, h]
  · intro h
    cases hk : entTruthy entities "product_color" <;>
      cases hk2 : entTruthy entities "color" <;>
        simp [extract_slots_from_entities, hk, hk2, h]
  · intro h
    cases hk : entTruthy entities "product_memory" <;>
      cases hk2 : entTruthy entities "memory" <;>
        simp [extract_slots_from_entities, hk, hk2, h]
  · intro h
    cases hk : entTruthy entities "variant" <;>
      simp [extract_slots_from_entities, hk, h]
  · intro h
    cases hk : entTruthy entities "price" with
    | none => simpa [extract_slots_from_entities, hk] using h
    | some v =>
        cases hf : toFloat v <;>
          simp [extract_slots_from_entities, hk, hf, h]
  · intro h
    cases hk : entTruthy entities "location" <;>
      simp [extract_slots_from_entities, hk, h]
  · intro h
    cases hk : entTruthy entities "date" <;>
      simp [extract_slots_from_entities, hk, h]
  · intro h
    cases hk : entTruthy entities "time" <;>
      simp [extract_slots_from_entities, hk, h]
  · intro h
    cases hk : entTruthy entities "delivery_service" <;>
      simp [extract_slots_from_entities, hk, h]
  · intro h
    cases hk : entTruthy entities "city" <;>
      simp [extract_slots_from_entities, hk, h]

/-- Witness for C9: a concrete merge with an empty entity map returns the
slots unchanged. -/
theorem c9_witness :
    extract_slots_from_entities (fun _ => none) [] slotsNameOnly = slotsNameOnly :=
  (c9_slot_merge_purity (fun _ => none) [] slotsNameOnly).1

/-- Helper: the filter collapses to the empty list when nothing clears the
base threshold. -/
theorem thresholdAdaptiveFilter_eq_nil {M : Type} (t : ℚ)
    (l : List (FinalEntry M)) (h : l.filter (fun r => t ≤ r.score) = []) :
    thresholdAdaptiveFilter t l = [] := by
  unfold thresholdAdaptiveFilter
  rw [h]

/-- Helper: with a nonempty threshold pass, the filter re-filters by the
adaptive cutoff anchored at the first survivor. -/
theorem thresholdAdaptiveFilter_eq_cons {M : Type} (t : ℚ)
    (l : List (FinalEntry M)) (top : FinalEntry M) (rest : List (FinalEntry M))
    (h : l.filter (fun r => t ≤ r.score) = top :: rest) :
    thresholdAdaptiveFilter t l =
      (top :: rest).filter (fun r => max t (top.score - 3/10) ≤ r.score) := by
  unfold thresholdAdaptiveFilter
  rw [h]

/-- C7: the threshold-plus-adaptive-cutoff filter is idempotent — applied to
its own (descending-sorted) output it returns that output unchanged. -/
theorem c7_adaptive_cutoff_idempotent {M : Type} (t : ℚ)
    (l : List (FinalEntry M))
    (h : SortedDescByScore (thresholdAdaptiveFilter t l)) :
    thresholdAdaptiveFilter t (thresholdAdaptiveFilter t l)
      = thresholdAdaptiveFilter t l := by
  rcases hF : l.filter (fun r => t ≤ r.score) with _ | ⟨top, rest⟩
  · rw [thresholdAdaptiveFilter_eq_nil t l hF]
    rfl
  · have htopmem : top ∈ l.filter (fun r => t ≤ r.score) :=
      hF ▸ List.mem_cons_self top rest
    have htop : t ≤ top.score := by
      have h2 := (List.mem_filter.mp htopmem).2
      simpa using h2
    rw [thresholdAdaptiveFilter_eq_cons t l top rest hF]
    set A := max t (top.score - 3/10) with hA
    set O := (top :: rest).filter (fun r => A ≤ r.score) with hO
    have hAtop : A ≤ top.score := by
      rw [hA]
      exact max_le htop (by linarith)
    have hOcons : O = top :: rest.filter (fun r => A ≤ r.score) := by
      rw [hO, List.filter_cons_of_pos]
      simpa using hAtop
    have hmem : ∀ e ∈ O, t ≤ e.score ∧ A ≤ e.score := by
      intro e he
      have h2 := (List.mem_filter.mp (hO ▸ he)).2
      simp only [decide_eq_true_eq] at h2
      exact ⟨le_trans (le_max_left t _) h2, h2⟩
    have hOfilter_t : O.filter (fun r => t ≤ r.score) = O :=
      List.filter_eq_self.mpr (fun e he => by
        simpa using (hmem e he).1)
    rw [thresholdAdaptiveFilter_eq_cons t O top
      (rest.filter (fun r => A ≤ r.score)) (by rw [hOfilter_t, hOcons])]
    rw [← hOcons]
    exact List.filter_eq_self.mpr (fun e he => decide_eq_true (hmem e he).2)

/-- Witness for C7 at a concrete sorted two-entry list. -/
theorem c7_witness :
    thresholdAdaptiveFilter 0
      (thresholdAdaptiveFilter 0
        ([⟨"a", (), 2, 2, 0, "product_a"⟩,
          ⟨"b", (), 1, 1, 0, "product_b"⟩] : List (FinalEntry Unit)))
      = thresholdAdaptiveFilter 0
        ([⟨"a", (), 2, 2, 0, "product_a"⟩,
          ⟨"b", (), 1, 1, 0, "product_b"⟩] : List (FinalEntry Unit)) :=
  c7_adaptive_cutoff_idempotent 0 _ (by
    unfold thresholdAdaptiveFilter SortedDescByScore
    norm_num [List.filter, List.chain'_cons])

/-- C8 (amended): every keyword-search result scores strictly above the
0.3 floor (an entry scoring exactly 0.3 is dropped, contrary to the
claim); a title containing the query as a substring scores exactly 1; a
category containing the query scores at least 0.5; and when the catalog
fits the `top_k` budget, every product scoring strictly above the floor is
retained with its score. -/
theorem c8_keyword_floor (repo : ProductRepository) (query : String)
    (top_k : Nat) (p : Product) (hp : p ∈ repo.list_products)
    (hlen : repo.products.length ≤ top_k) :
    (∀ e ∈ keyword_search repo query top_k, 3/10 < e.score)
    ∧ (pyIn (pyLower query) (pyLower p.title) = true →
        keywordScore (pyLower query) p = 1)
    ∧ (pyIn (pyLower query) (pyLower p.category) = true →
        1/2 ≤ keywordScore (pyLower query) p)
    ∧ (3/10 < keywordScore (pyLower query) p →
        ∃ e ∈ keyword_search repo query top_k,
          e.product_id = p.id ∧ e.score = keywordScore (pyLower query) p) := by
  refine ⟨?_, ?_, ?_, ?_⟩
  · intro e he
    simp only [keyword_search] at he
    have h1 := List.mem_of_mem_take he
    have h2 := (mem_sortByScoreDesc _ _ _).mp h1
    obtain ⟨p2, hp2, hfp⟩ := List.mem_filterMap.mp h2
    by_cases hc : (3:ℚ)/10 < keywordScore (pyLower query) p2
    · rw [if_pos hc] at hfp
      cases hfp
      exact hc
    · rw [if_neg hc] at hfp
      cases hfp
  · intro h
    cases hcat : pyIn (pyLower query) (pyLower p.category) <;>
      simp [keywordScore, h, hcat, max_eq_left (by norm_num : (1:ℚ)/2 ≤ 1)] <;>
      norm_num
  · intro h
    simp only [keywordScore, h, if_true]
    exact le_max_right _ _
  · intro hsc
    have hl : (repo.list_products).length = repo.products.length := by
      simp [ProductRepository.list_products]
    have hcand :
        (⟨p.id, keywordScore (pyLower query) p, p.title,
          ⟨p.category, p.price, p.id, p.title⟩⟩ : KwResult KwMetadata) ∈
          (repo.list_products).filterMap (fun q =>
            if 3/10 < keywordScore (pyLower query) q then
              some ⟨q.id, keywordScore (pyLower query) q, q.title,
                ⟨q.category, q.price, q.id, q.title⟩⟩
            else none) :=
      List.mem_filterMap.mpr ⟨p, hp, by rw [if_pos hsc]⟩
    have hlen2 : ((repo.list_products).filterMap (fun q =>
        if 3/10 < keywordScore (pyLower query) q then
          some (⟨q.id, keywordScore (pyLower query) q, q.title,
            ⟨q.category, q.price, q.id, q.title⟩⟩ : KwResult KwMetadata)
        else none)).length ≤ top_k :=
      le_trans (List.length_filterMap_le _ _) (le_trans (le_of_eq hl) hlen)
    simp only [keyword_search]
    rw [List.take_of_length_le (by rw [length_sortByScoreDesc]; exact hlen2)]
    exact ⟨_, (mem_sortByScoreDesc _ _ _).mpr hcand, rfl, rfl⟩

/-- Witness for C8: the single-product sample repository retains a product
whose title contains the query, at score 1. -/
theorem c8_witness :
    keywordScore (pyLower "a b") prodEdge = 1
    ∧ ∃ e ∈ keyword_search repoEdge "a b" 10,
        e.product_id = prodEdge.id ∧ e.score = keywordScore (pyLower "a b") prodEdge := by
  have h := c8_keyword_floor repoEdge "a b" 10 prodEdge (by decide) (by decide)
  have h2 := h.2.1 (by decide)
  exact ⟨h2, h.2.2.2 (by rw [h2]; norm_num)⟩

/-- Counterexample to C8 as stated: a keyword score of exactly 0.3 (three
of eight query words match the title) is excluded from the results, not
retained. -/
theorem c8_counterexample :
    keywordScore (pyLower queryEdge) prodEdge = 3/10
    ∧ keyword_search repoEdge queryEdge 10 = [] := by
  have h1 : pyIn (pyLower queryEdge) (pyLower prodEdge.title) = false := by decide
  have h2 : pyIn (pyLower queryEdge) (pyLower prodEdge.category) = false := by decide
  have h4 : ((pySplit (pyLower queryEdge)).filter
      (fun qw => pyIn qw (pyLower prodEdge.title))).length = 3 := by decide
  have h5 : (pySplit (pyLower queryEdge)).length = 8 := by decide
  have hscore : keywordScore (pyLower queryEdge) prodEdge = 3/10 := by
    simp only [keywordScore, h1, h2, h4, h5]
    norm_num
  refine ⟨hscore, ?_⟩
  have h6 : ¬ ((3:ℚ)/10 < keywordScore (pyLower queryEdge) prodEdge) := by
    rw [hscore]
    norm_num
  have h7 : repoEdge.list_products = [prodEdge] := rfl
  simp only [keyword_search, h7, List.filterMap, if_neg h6]
  rfl

theorem semFindLast_eq_none_of_not_mem {M : Type} (sem : List (SemResult M))
    (pid : String) (h : pid ∉ semTruthyPids sem) : semFindLast sem pid = none := by
  induction sem with
  | nil => rfl
  | cons r rest ih =>
      have hr : truthyPid r ≠ some pid := fun heq =>
        h (by simp [semTruthyPids, List.filterMap_cons, heq])
      have hrest : pid ∉ semTruthyPids rest := fun hmem => by
        obtain ⟨a, ha, hpa⟩ := List.mem_filterMap.mp hmem
        exact h (List.mem_filterMap.mpr ⟨a, List.mem_cons_of_mem r ha, hpa⟩)
      simp only [semFindLast, ih hrest, if_neg hr]

theorem semFindLast_of_mem {M : Type} (sem : List (SemResult M))
    (s : SemResult M) (pid : String) (hs : (semTruthyPids sem).Nodup)
    (hmem : s ∈ sem) (hpid : truthyPid s = some pid) :
    semFindLast sem pid = some s := by
  induction sem with
  | nil => cases hmem
  | cons r rest ih =>
      rcases List.mem_cons.mp hmem with rfl | hmem2
      · have hnotin : pid ∉ semTruthyPids rest := by
          intro hin
          have : (semTruthyPids (s :: rest)) = pid :: semTruthyPids rest := by
            simp [semTruthyPids, List.filterMap_cons, hpid]
          rw [this] at hs
          exact (List.nodup_cons.mp hs).1 hin
        simp only [semFindLast,
          semFindLast_eq_none_of_not_mem rest pid hnotin, if_pos hpid]
      · have hsrest : (semTruthyPids rest).Nodup := by
          simp only [semTruthyPids, List.filterMap_cons] at hs
          cases htp : truthyPid r
          · rw [htp] at hs
            exact hs
          · rw [htp] at hs
            exact (List.nodup_cons.mp hs).2
        simp only [semFindLast, ih hsrest hmem2]

theorem insertSem_nodup {M : Type} (acc : List (String × CombData M))
    (r : SemResult M) (h : (dkeys acc).Nodup) :
    (dkeys (insertSem acc r)).Nodup := by
  unfold insertSem
  cases hq : r.product_id with
  | none => exact h
  | some q =>
      by_cases hqe : q = ""
      · simpa [hqe] using h
      · simpa [hqe] using nodup_dkeys_dictSet acc q _ h

theorem fold1_nodup {M : Type} (sem : List (SemResult M))
    (acc : List (String × CombData M)) (h : (dkeys acc).Nodup) :
    (dkeys (sem.foldl insertSem acc)).Nodup := by
  induction sem generalizing acc with
  | nil => exact h
  | cons r rest ih => exact ih _ (insertSem_nodup acc r h)

theorem truthyPid_eq_some {M : Type} (r : SemResult M) (pid : String) :
    truthyPid r = some pid ↔ r.product_id = some pid ∧ pid ≠ "" := by
  cases hq : r.product_id with
  | none => simp [truthyPid, hq]
  | some q =>
      simp only [truthyPid, hq]
      by_cases hqe : q = ""
      · subst hqe
        simp only [if_pos rfl, Option.some.injEq]
        constructor
        · intro hh
          cases hh
        · rintro ⟨hh1, hh2⟩
          exact absurd hh1.symm hh2
      · simp only [if_neg hqe, Option.some.injEq]
        constructor
        · intro hh
          subst hh
          exact ⟨rfl, hqe⟩
        · rintro ⟨hh, _⟩
          exact hh

theorem fold1_lookup {M : Type} (sem : List (SemResult M))
    (acc : List (String × CombData M)) (pid : String) :
    dictGet (sem.foldl insertSem acc) pid =
      match semFindLast sem pid with
      | some r => some ⟨r.text, r.metadata, r.score, 0⟩
      | none => dictGet acc pid := by
  induction sem generalizing acc with
  | nil => rfl
  | cons r rest ih =>
      rw [List.foldl_cons, ih]
      cases hrest : semFindLast rest pid with
      | some x => simp [semFindLast, hrest]
      | none =>
          simp only [semFindLast, hrest]
          by_cases htp : truthyPid r = some pid
          · rw [if_pos htp]
            obtain ⟨hq, hpe⟩ := (truthyPid_eq_some r pid).mp htp
            simp only [insertSem, hq, if_neg hpe]
            rw [dictGet_dictSet_self]
          · rw [if_neg htp]
            cases hq : r.product_id with
            | none => simp [insertSem, hq]
            | some q =>
                by_cases hqe : q = ""
                · simp [insertSem, hq, hqe]
                · have hqpid : q ≠ pid := fun hh =>
                    htp ((truthyPid_eq_some r pid).mpr ⟨hh ▸ hq, hh ▸ hqe⟩)
                  simp only [insertSem, hq, if_neg hqe]
                  exact dictGet_dictSet_ne acc q pid _ (Ne.symm hqpid)

theorem kwFind_eq_none {M : Type} (kw : List (KwResult M)) (pid : String)
    (h : ∀ r ∈ kw, r.product_id ≠ pid) : kwFind kw pid = none := by
  induction kw with
  | nil => rfl
  | cons r rest ih =>
      simp only [kwFind, if_neg (h r (List.mem_cons_self r rest))]
      exact ih (fun x hx => h x (List.mem_cons_of_mem r hx))

theorem kwFind_of_mem {M : Type} (kw : List (KwResult M)) (k : KwResult M)
    (hnd : (kw.map (fun r => r.product_id)).Nodup) (hmem : k ∈ kw) :
    kwFind kw k.product_id = some k := by
  induction kw with
  | nil => cases hmem
  | cons r rest ih =>
      have hcons := hnd
      rw [List.map_cons, List.nodup_cons] at hcons
      rcases List.mem_cons.mp hmem with rfl | hmem2
      · simp [kwFind]
      · by_cases hr : r.product_id = k.product_id
        · exact absurd (hr ▸ List.mem_map_of_mem (fun x => x.product_id) hmem2)
            hcons.1
        · simp only [kwFind, if_neg hr]
          exact ih hcons.2 hmem2

theorem insertKw_lookup_ne {M : Type} (repo : ProductRepository)
    (acc : List (String × CombData M)) (r : KwResult M) (pid : String)
    (h : r.product_id ≠ pid) :
    dictGet (insertKw repo acc r) pid = dictGet acc pid := by
  unfold insertKw
  cases hacc : dictGet acc r.product_id with
  | some d => exact dictGet_dictSet_ne acc r.product_id pid _ (Ne.symm h)
  | none =>
      cases hrep : repo.get_product r.product_id with
      | some p => exact dictGet_dictSet_ne acc r.product_id pid _ (Ne.symm h)
      | none => rfl

theorem insertKw_nodup {M : Type} (repo : ProductRepository)
    (acc : List (String × CombData M)) (r : KwResult M)
    (h : (dkeys acc).Nodup) : (dkeys (insertKw repo acc r)).Nodup := by
  unfold insertKw
  cases hacc : dictGet acc r.product_id with
  | some d => exact nodup_dkeys_dictSet acc r.product_id _ h
  | none =>
      cases hrep : repo.get_product r.product_id with
      | some p => exact nodup_dkeys_dictSet acc r.product_id _ h
      | none => exact h

theorem fold2_nodup {M : Type} (repo : ProductRepository)
    (kw : List (KwResult M)) (acc : List (String × CombData M))
    (h : (dkeys acc).Nodup) :
    (dkeys (kw.foldl (insertKw repo) acc)).Nodup := by
  induction kw generalizing acc with
  | nil => exact h
  | cons r rest ih => exact ih _ (insertKw_nodup repo acc r h)

theorem fold2_lookup {M : Type} (repo : ProductRepository)
    (kw : List (KwResult M)) (pid : String)
    (hnd : (kw.map (fun r => r.product_id)).Nodup)
    (acc : List (String × CombData M)) :
    dictGet (kw.foldl (insertKw repo) acc) pid =
      match kwFind kw pid with
      | some r =>
          match dictGet acc pid with
          | some d => some { d with keyword_score := r.score }
          | none => (repo.get_product pid).map
              (fun p => ⟨format_product p, r.metadata, 0, r.score⟩)
      | none => dictGet acc pid := by
  induction kw generalizing acc with
  | nil => rfl
  | cons r rest ih =>
      have hcons := hnd
      rw [List.map_cons, List.nodup_cons] at hcons
      rw [List.foldl_cons, ih hcons.2]
      by_cases hr : r.product_id = pid
      · have hkfr : kwFind rest pid = none :=
          kwFind_eq_none rest pid (fun x hx heq =>
            hcons.1 ((hr.symm ▸ heq) ▸ List.mem_map_of_mem (fun y => y.product_id) hx))
        rw [hkfr]
        simp only [kwFind, if_pos hr]
        simp only [insertKw, hr]
        cases hacc : dictGet acc pid with
        | some d => rw [dictGet_dictSet_self]
        | none =>
            cases hrep : repo.get_product pid with
            | some p =>
                rw [dictGet_dictSet_self]
                rfl
            | none =>
                rw [hacc]
                rfl
      · have hkf : kwFind (r :: rest) pid = kwFind rest pid := by
          simp [kwFind, hr]
        rw [hkf, insertKw_lookup_ne repo acc r pid hr]

theorem product_id_append_inj :
    Function.Injective (fun s : String => "product_" ++ s) := by
  intro a b h
  have hd := congrArg String.data h
  simp only [String.data_append] at hd
  exact String.ext (List.append_cancel_left hd)

/-- C2: after constructor normalization the two fusion weights sum to 1;
`_combine_results` deduplicates by product id (the output ids are pairwise
distinct), every output entry's score is the weighted sum of its two
partial scores, a product found by both arms appears carrying both partial
scores, a product found only semantically carries keyword score 0, and a
repository-known product found only by keyword search carries semantic
score 0. -/
theorem c2_fusion_weighted_dedup {M : Type} (repo : ProductRepository)
    (semantic_weight keyword_weight ws wk : ℚ)
    (htot : semantic_weight + keyword_weight ≠ 0)
    (hw : normalizeWeights semantic_weight keyword_weight = (ws, wk))
    (sem : List (SemResult M)) (kws : List (KwResult M))
    (hs : (semTruthyPids sem).Nodup)
    (hk : (kws.map (fun r => r.product_id)).Nodup) :
    ws + wk = 1
    ∧ ((combine_results repo ws wk sem kws).map (fun e => e.id)).Nodup
    ∧ (∀ e ∈ combine_results repo ws wk sem kws,
        e.score = e.semantic_score * ws + e.keyword_score * wk)
    ∧ (∀ s ∈ sem, ∀ pid, truthyPid s = some pid → ∀ k ∈ kws,
        k.product_id = pid →
        ∃ e ∈ combine_results repo ws wk sem kws,
          e.id = "product_" ++ pid ∧ e.semantic_score = s.score
            ∧ e.keyword_score = k.score)
    ∧ (∀ s ∈ sem, ∀ pid, truthyPid s = some pid →
        pid ∉ kws.map (fun r => r.product_id) →
        ∃ e ∈ combine_results repo ws wk sem kws,
          e.id = "product_" ++ pid ∧ e.semantic_score = s.score
            ∧ e.keyword_score = 0)
    ∧ (∀ k ∈ kws, ∀ p : Product, k.product_id ∉ semTruthyPids sem →
        repo.get_product k.product_id = some p →
        ∃ e ∈ combine_results repo ws wk sem kws,
          e.id = "product_" ++ k.product_id ∧ e.semantic_score = 0
            ∧ e.keyword_score = k.score) := by
  have hwpair : ws = semantic_weight / (semantic_weight + keyword_weight)
      ∧ wk = keyword_weight / (semantic_weight + keyword_weight) := by
    have h1 := congrArg Prod.fst hw
    have h2 := congrArg Prod.snd hw
    simp only [normalizeWeights] at h1 h2
    exact ⟨h1.symm, h2.symm⟩
  have hmem_result : ∀ (pid : String) (d : CombData M),
      dictGet (kws.foldl (insertKw repo) (sem.foldl insertSem [])) pid = some d →
      (⟨d.text, d.metadata, d.semantic_score * ws + d.keyword_score * wk,
        d.semantic_score, d.keyword_score, "product_" ++ pid⟩ : FinalEntry M)
        ∈ combine_results repo ws wk sem kws := by
    intro pid d hd
    have hpd := mem_of_dictGet _ _ _ hd
    simp only [combine_results]
    rw [mem_sortByScoreDesc]
    exact List.mem_map_of_mem _ hpd
  refine ⟨?_, ?_, ?_, ?_, ?_, ?_⟩
  · rw [hwpair.1, hwpair.2, div_add_div_same, div_self htot]
  · have hkeys : (dkeys (kws.foldl (insertKw repo)
        (sem.foldl insertSem ([] : List (String × CombData M))))).Nodup :=
      fold2_nodup repo kws _ (fold1_nodup sem [] (by simp [dkeys]))
    simp only [combine_results]
    rw [List.Perm.nodup_iff
      ((sortByScoreDesc_perm (fun e : FinalEntry M => e.score) _).map (fun e => e.id))]
    rw [List.map_map]
    have hcomp : ((fun e : FinalEntry M => e.id) ∘
        (fun kv : String × CombData M =>
          (⟨kv.2.text, kv.2.metadata,
            kv.2.semantic_score * ws + kv.2.keyword_score * wk,
            kv.2.semantic_score, kv.2.keyword_score,
            "product_" ++ kv.1⟩ : FinalEntry M)))
        = (fun s : String => "product_" ++ s) ∘ Prod.fst := rfl
    rw [hcomp, ← List.map_map]
    exact List.Nodup.map product_id_append_inj hkeys
  · intro e he
    simp only [combine_results] at he
    rw [mem_sortByScoreDesc] at he
    obtain ⟨kv, hkv, heq⟩ := List.mem_map.mp he
    subst heq
    rfl
  · intro s hsm pid htp k hkm hkpid
    have h1 := semFindLast_of_mem sem s pid hs hsm htp
    have h2 : kwFind kws pid = some k := by
      have h3 := kwFind_of_mem kws k hk hkm
      rwa [hkpid] at h3
    have hc1 : dictGet (sem.foldl insertSem ([] : List (String × CombData M))) pid
        = some ⟨s.text, s.metadata, s.score, 0⟩ := by
      rw [fold1_lookup, h1]
    have hc2 : dictGet (kws.foldl (insertKw repo) (sem.foldl insertSem [])) pid
        = some ⟨s.text, s.metadata, s.score, k.score⟩ := by
      rw [fold2_lookup repo kws pid hk, h2, hc1]
    exact ⟨_, hmem_result pid _ hc2, rfl, rfl, rfl⟩
  · intro s hsm pid htp hknot
    have h1 := semFindLast_of_mem sem s pid hs hsm htp
    have h2 : kwFind kws pid = none :=
      kwFind_eq_none kws pid (fun x hx heq =>
        hknot (heq ▸ List.mem_map_of_mem (fun r => r.product_id) hx))
    have hc1 : dictGet (sem.foldl insertSem ([] : List (String × CombData M))) pid
        = some ⟨s.text, s.metadata, s.score, 0⟩ := by
      rw [fold1_lookup, h1]
    have hc2 : dictGet (kws.foldl (insertKw repo) (sem.foldl insertSem [])) pid
        = some ⟨s.text, s.metadata, s.score, 0⟩ := by
      rw [fold2_lookup repo kws pid hk, h2]
      exact hc1
    exact ⟨_, hmem_result pid _ hc2, rfl, rfl, rfl⟩
  · intro k hkm p hnotin hrepo
    have h1 : semFindLast sem k.product_id = none :=
      semFindLast_eq_none_of_not_mem sem _ hnotin
    have h2 := kwFind_of_mem kws k hk hkm
    have hc1 : dictGet (sem.foldl insertSem ([] : List (String × CombData M)))
        k.product_id = none := by
      rw [fold1_lookup, h1]
      rfl
    have hc2 : dictGet (kws.foldl (insertKw repo) (sem.foldl insertSem []))
        k.product_id = some ⟨format_product p, k.metadata, 0, k.score⟩ := by
      rw [fold2_lookup repo kws k.product_id hk, h2, hc1, hrepo]
      rfl
    exact ⟨_, hmem_result _ _ hc2, rfl, rfl, rfl⟩

/-- Witness for C2: one semantic hit and one keyword hit on the same
product merge into a single entry carrying both partial scores. -/
theorem c2_witness :
    ∃ e ∈ combine_results repoEdge (3/5) (2/5)
        ([⟨"sem text", some "p3", (), 1⟩] : List (SemResult Unit))
        ([⟨"p3", 1/2, "a b c", ()⟩] : List (KwResult Unit)),
      e.id = "product_" ++ "p3" ∧ e.semantic_score = 1
        ∧ e.keyword_score = 1/2 :=
  (c2_fusion_weighted_dedup repoEdge 3 2 (3/5) (2/5) (by norm_num)
      (by norm_num [normalizeWeights])
      ([⟨"sem text", some "p3", (), 1⟩] : List (SemResult Unit))
      ([⟨"p3", 1/2, "a b c", ()⟩] : List (KwResult Unit))
      (by decide) (by decide)).2.2.2.1
    ⟨"sem text", some "p3", (), 1⟩ (List.mem_singleton.mpr rfl) "p3" (by decide)
    ⟨"p3", 1/2, "a b c", ()⟩ (List.mem_singleton.mpr rfl) rfl

end AvitoAgent
